import Mathlib

/-!
# Verification of the Halo face-search vector store (`app/main_simple.py`)

Shallow embedding of the in-memory vector database `FaceDatabase` and the
HTTP-level validation of `search_faces` / `clear_database`, together with
proofs of the spec's claims about them.

Modelling conventions:
* Python floats are modelled as exact rationals (`ℚ`); the real-valued cosine
  similarity (which involves square roots) is represented exactly by a pair
  `Score = (dot product, squared product of norms)` whose real value is
  `num / √den2`, and comparisons on such pairs are done by exact rational
  cross-multiplication (`Score.ble`), proved equivalent to the comparison of
  the real values (`Score.ble_iff`).
* `sklearn.metrics.pairwise.cosine_similarity` normalizes each row, replacing
  a zero norm by 1 (so a zero vector gets similarity 0, not NaN); this is the
  `safeNormSq` below.
* `np.argsort` is modelled as the stable ascending argsort: indices ordered by
  ascending value, ties by ascending index.  `search_similar` then mirrors
  `np.argsort(similarities)[::-1][:top_k]` literally: reverse, then take.
* the dict returned for each hit in `search_similar` carries `rank`,
  the fields of `self.faces[idx]` and the (rounded, for display) similarity
  score; the model keeps the whole joined record and the exact score.
-/

namespace Halo

/-- One record of `FaceDatabase.faces`, as built in `add_face`:
`{"id": next_id, "face_id": ..., "person_name": ..., "image_path": ...,
"created_at": time.time()}`. -/
structure FaceRecord where
  id : ℕ
  face_id : String
  person_name : String
  image_path : String
  created_at : ℚ
deriving DecidableEq

instance : Inhabited FaceRecord := ⟨⟨0, "", "", "", 0⟩⟩

/-- The in-memory vector database (`class FaceDatabase`): parallel lists
`faces` and `embeddings` plus the id counter `next_id`. -/
structure FaceDatabase where
  faces : List FaceRecord
  embeddings : List (List ℚ)
  next_id : ℕ
deriving DecidableEq

/-- `FaceDatabase.__init__`: empty lists, `next_id = 1`. -/
def FaceDatabase.empty : FaceDatabase := ⟨[], [], 1⟩

/-- `FaceDatabase.add_face`: appends the record and the embedding, increments
`next_id`, and returns the record.  (The Python method mutates `self`; the
model returns the new state together with the returned record.)  Note that the
method performs no validation of the embedding's length. -/
def FaceDatabase.add_face (db : FaceDatabase) (embedding : List ℚ)
    (face_id person_name image_path : String) (now : ℚ) :
    FaceDatabase × FaceRecord :=
  let record : FaceRecord :=
    ⟨db.next_id, face_id, person_name, image_path, now⟩
  (⟨db.faces ++ [record], db.embeddings ++ [embedding], db.next_id + 1⟩, record)

/-- Dot product of two vectors (componentwise product, summed; extra
components of the longer vector are ignored, as all vectors compared in the
code have equal length). -/
def dot (xs ys : List ℚ) : ℚ := (List.zipWith (· * ·) xs ys).sum

/-- Squared L2 norm. -/
def normSq (xs : List ℚ) : ℚ := dot xs xs

/-- Squared norm as used by sklearn's `cosine_similarity`, which replaces a
zero row norm by 1 before dividing (`normalize`: `norms[norms == 0.0] = 1.0`). -/
def safeNormSq (xs : List ℚ) : ℚ := if normSq xs = 0 then 1 else normSq xs

/-- Exact representation of a cosine-similarity value `num / √den2`
(`den2 > 0` always holds because `safeNormSq` is positive). -/
structure Score where
  num : ℚ
  den2 : ℚ
  den2_pos : 0 < den2

instance : Inhabited Score := ⟨⟨0, 1, one_pos⟩⟩

/-- The real number a `Score` stands for. -/
noncomputable def Score.val (a : Score) : ℝ := (a.num : ℝ) / Real.sqrt ((a.den2 : ℝ))

/-- Decidable comparison of two scores, by sign analysis and
cross-multiplication of squares; `Score.ble_iff` proves it computes
`a.val ≤ b.val`. -/
def Score.ble (a b : Score) : Bool :=
  if a.num ≤ 0 then
    if 0 ≤ b.num then true
    else decide (b.num ^ 2 * a.den2 ≤ a.num ^ 2 * b.den2)
  else
    if b.num ≤ 0 then false
    else decide (a.num ^ 2 * b.den2 ≤ b.num ^ 2 * a.den2)

/-- The cosine similarity of `q` and `v` computed by
`cosine_similarity(query, matrix)`, as an exact `Score` (the positivity of
the denominator is immediate from `safeNormSq` replacing 0 by 1). -/
def cosineScore (q v : List ℚ) : Score where
  num := dot q v
  den2 := safeNormSq q * safeNormSq v
  den2_pos := by
    have key : ∀ xs : List ℚ, 0 < safeNormSq xs := by
      intro xs
      have h : 0 ≤ normSq xs := by
        unfold normSq dot
        induction xs with
        | nil => simp
        | cons x xs ih =>
          simp only [List.zipWith_cons_cons, List.sum_cons]
          nlinarith [mul_self_nonneg x]
      unfold safeNormSq
      split_ifs with h0
      · exact one_pos
      · exact lt_of_le_of_ne h (Ne.symm h0)
    exact mul_pos (key q) (key v)

/-- Comparator on positions of `scores` modelling `np.argsort`'s tie handling
on the stable model: ascending score, ties by ascending index. -/
def argsortKey (scores : List Score) (i j : ℕ) : Bool :=
  if (scores.getD i default).ble (scores.getD j default) &&
      (scores.getD j default).ble (scores.getD i default)
  then decide (i ≤ j)
  else (scores.getD i default).ble (scores.getD j default)

/-- `np.argsort(scores)`: the positions `0, …, n-1` sorted by ascending score
(stable, i.e. ties by ascending position). -/
def argsort (scores : List Score) : List ℕ :=
  (List.range scores.length).mergeSort (argsortKey scores)

/-- One entry of the result list built in `search_similar`'s loop: the rank
`i + 1`, the joined record `self.faces[idx]`, and the similarity score. -/
structure SearchResult where
  rank : ℕ
  record : FaceRecord
  score : Score

/-- `FaceDatabase.search_similar`: empty guard, cosine similarities of the
query against every stored embedding, `np.argsort(...)[::-1][:top_k]`, then
the result-assembly loop joining `self.faces[idx]`. -/
def FaceDatabase.search_similar (db : FaceDatabase) (query : List ℚ)
    (top_k : ℕ) : List SearchResult :=
  -- `similarities` is `db.embeddings.map (fun e => cosineScore query e)` and
  -- `top_indices` is `(argsort similarities).reverse.take top_k`, i.e.
  -- `np.argsort(similarities)[::-1][:top_k]`; the final `map` over
  -- `top_indices.enum` is the `for i, idx in enumerate(top_indices)` loop.
  if db.embeddings.length = 0 then []
  else
    ((argsort (db.embeddings.map (fun e => cosineScore query e))).reverse.take
        top_k).enum.map (fun p =>
      { rank := p.1 + 1
        record := db.faces.getD p.2 default
        score := (db.embeddings.map (fun e => cosineScore query e)).getD p.2 default })

/-- The dict returned by `FaceDatabase.get_stats`. -/
structure Stats where
  total_faces : ℕ
  embedding_dimension : ℕ
  database_type : String

/-- `FaceDatabase.get_stats`: `total_faces = len(self.faces)`,
`embedding_dimension = 512 if self.embeddings else 0`. -/
def FaceDatabase.get_stats (db : FaceDatabase) : Stats :=
  ⟨db.faces.length, if db.embeddings.isEmpty then 0 else 512,
    "In-Memory Vector Store"⟩

/-- The response of the `DELETE /clear_database` endpoint. -/
structure ClearResponse where
  success : Bool
  faces_removed : ℕ

/-- `clear_database`: replaces the global `face_db` by a fresh
`FaceDatabase()` and reports the old count. -/
def clear_database (db : FaceDatabase) : FaceDatabase × ClearResponse :=
  (FaceDatabase.empty, ⟨true, db.get_stats.total_faces⟩)

/-- The `HTTPException`s raised by the `POST /search` endpoint. -/
inductive ApiError
  | notImage
  | invalidTopK
  | embeddingFailed
deriving DecidableEq

/-- The `POST /search` endpoint (`search_faces`): content-type check, then
`top_k` range check (`top_k < 1 or top_k > 20`), then embedding extraction
(which may fail, modelled by `Option`), then `face_db.search_similar`.
`top_k` is the request's integer query parameter. -/
def search_faces (contentTypeIsImage : Bool) (top_k : ℤ) (db : FaceDatabase)
    (extracted : Option (List ℚ)) : Except ApiError (List SearchResult) :=
  if ¬contentTypeIsImage then .error .notImage
  else if top_k < 1 ∨ top_k > 20 then .error .invalidTopK
  else
    match extracted with
    | none => .error .embeddingFailed
    | some q => .ok (db.search_similar q top_k.toNat)

/-- The store operations of the API surface, for invariant preservation:
`add_face`, `search_similar` and `get_stats` (both read-only on the store) and
`clear_database`. -/
inductive Op
  | add (embedding : List ℚ) (face_id person_name image_path : String) (now : ℚ)
  | search (query : List ℚ) (top_k : ℕ)
  | stats
  | clear

/-- The store state after one operation (reads leave it unchanged). -/
def applyOp (db : FaceDatabase) : Op → FaceDatabase
  | .add e f p i t => (db.add_face e f p i t).1
  | .search _ _ => db
  | .stats => db
  | .clear => (clear_database db).1

/-- Structural invariant of `FaceDatabase`: the two parallel lists have equal
length, the record at position `i` carries id `i + 1` (stated as
`map id = [1, …, n]`), and `next_id` is the count plus one. -/
def WF (db : FaceDatabase) : Prop :=
  db.embeddings.length = db.faces.length ∧
  db.faces.map FaceRecord.id = List.range' 1 db.faces.length ∧
  db.next_id = db.faces.length + 1

instance : DecidablePred WF := fun db => by unfold WF; infer_instance

/-- An `add_face` request (the arguments of one `add` operation), used to
state properties of arbitrary sequences of insertions. -/
structure AddReq where
  embedding : List ℚ
  face_id : String
  person_name : String
  image_path : String
  now : ℚ

/-- The database obtained from a fresh store by a sequence of `add_face`
calls (the state since the last reset). -/
def buildDb (ops : List AddReq) : FaceDatabase :=
  ops.foldl
    (fun db r => (db.add_face r.embedding r.face_id r.person_name r.image_path r.now).1)
    FaceDatabase.empty

theorem normSq_nonneg (xs : List ℚ) : 0 ≤ normSq xs := by
  unfold normSq dot
  induction xs with
  | nil => simp
  | cons x xs ih =>
    simp only [List.zipWith_cons_cons, List.sum_cons]
    nlinarith [mul_self_nonneg x]

theorem safeNormSq_pos (xs : List ℚ) : 0 < safeNormSq xs := by
  unfold safeNormSq
  split
  · exact one_pos
  · rename_i h
    exact lt_of_le_of_ne (normSq_nonneg xs) (Ne.symm h)

/-! ## The exact score comparison computes the real cosine comparison -/

theorem Score.ble_iff (a b : Score) : a.ble b = true ↔ a.val ≤ b.val := by
  have haq : (0 : ℝ) < (a.den2 : ℝ) := by exact_mod_cast a.den2_pos
  have hbq : (0 : ℝ) < (b.den2 : ℝ) := by exact_mod_cast b.den2_pos
  have hS : 0 < Real.sqrt ((a.den2 : ℝ)) := Real.sqrt_pos.mpr haq
  have hT : 0 < Real.sqrt ((b.den2 : ℝ)) := Real.sqrt_pos.mpr hbq
  have hS2 : Real.sqrt ((a.den2 : ℝ)) ^ 2 = (a.den2 : ℝ) := Real.sq_sqrt haq.le
  have hT2 : Real.sqrt ((b.den2 : ℝ)) ^ 2 = (b.den2 : ℝ) := Real.sq_sqrt hbq.le
  rw [Score.val, Score.val, div_le_div_iff₀ hS hT]
  unfold Score.ble
  split_ifs with h1 h2 h3
  · -- a.num ≤ 0 ≤ b.num
    have hA : (a.num : ℝ) ≤ 0 := by exact_mod_cast h1
    have hB : (0 : ℝ) ≤ (b.num : ℝ) := by exact_mod_cast h2
    refine iff_of_true rfl ?_
    calc (a.num : ℝ) * Real.sqrt ((b.den2 : ℝ)) ≤ 0 := mul_nonpos_iff.mpr (Or.inr ⟨hA, hT.le⟩)
      _ ≤ (b.num : ℝ) * Real.sqrt ((a.den2 : ℝ)) := mul_nonneg hB hS.le
  · -- a.num ≤ 0, b.num < 0
    have hA : (a.num : ℝ) ≤ 0 := by exact_mod_cast h1
    have hB : (b.num : ℝ) < 0 := by exact_mod_cast lt_of_not_ge h2
    rw [decide_eq_true_iff]
    constructor
    · intro h
      have hq : ((b.num : ℝ)) ^ 2 * ((a.den2 : ℝ)) ≤ ((a.num : ℝ)) ^ 2 * ((b.den2 : ℝ)) := by
        exact_mod_cast h
      have hsq : ((-(b.num : ℝ)) * Real.sqrt ((a.den2 : ℝ))) ^ 2 ≤
          ((-(a.num : ℝ)) * Real.sqrt ((b.den2 : ℝ))) ^ 2 := by
        rw [mul_pow, mul_pow, hS2, hT2, neg_pow, neg_pow]
        simpa using hq
      have hle := le_of_pow_le_pow_left₀ two_ne_zero
        (mul_nonneg (by linarith) hT.le) hsq
      nlinarith [hle]
    · intro h
      have hle : (-(b.num : ℝ)) * Real.sqrt ((a.den2 : ℝ)) ≤
          (-(a.num : ℝ)) * Real.sqrt ((b.den2 : ℝ)) := by nlinarith [h]
      have hsq := pow_le_pow_left₀ (mul_nonneg (by linarith) hS.le) hle 2
      rw [mul_pow, mul_pow, hS2, hT2, neg_pow, neg_pow] at hsq
      have hq : ((b.num : ℝ)) ^ 2 * ((a.den2 : ℝ)) ≤ ((a.num : ℝ)) ^ 2 * ((b.den2 : ℝ)) := by
        simpa using hsq
      exact_mod_cast hq
  · -- 0 < a.num, b.num ≤ 0
    have hA : (0 : ℝ) < (a.num : ℝ) := by exact_mod_cast lt_of_not_ge h1
    have hB : (b.num : ℝ) ≤ 0 := by exact_mod_cast h3
    refine iff_of_false (by simp) (not_le.mpr ?_)
    calc (b.num : ℝ) * Real.sqrt ((a.den2 : ℝ)) ≤ 0 := mul_nonpos_iff.mpr (Or.inr ⟨hB, hS.le⟩)
      _ < (a.num : ℝ) * Real.sqrt ((b.den2 : ℝ)) := mul_pos hA hT
  · -- 0 < a.num, 0 < b.num
    have hA : (0 : ℝ) < (a.num : ℝ) := by exact_mod_cast lt_of_not_ge h1
    have hB : (0 : ℝ) < (b.num : ℝ) := by exact_mod_cast lt_of_not_ge h3
    rw [decide_eq_true_iff]
    constructor
    · intro h
      have hq : ((a.num : ℝ)) ^ 2 * ((b.den2 : ℝ)) ≤ ((b.num : ℝ)) ^ 2 * ((a.den2 : ℝ)) := by
        exact_mod_cast h
      have hsq : ((a.num : ℝ) * Real.sqrt ((b.den2 : ℝ))) ^ 2 ≤
          ((b.num : ℝ) * Real.sqrt ((a.den2 : ℝ))) ^ 2 := by
        rw [mul_pow, mul_pow, hS2, hT2]; exact hq
      exact le_of_pow_le_pow_left₀ two_ne_zero (mul_nonneg hB.le hS.le) hsq
    · intro h
      have hsq := pow_le_pow_left₀ (mul_nonneg hA.le hT.le) h 2
      rw [mul_pow, mul_pow, hS2, hT2] at hsq
      exact_mod_cast hsq

theorem Score.ble_refl (a : Score) : a.ble a = true :=
  (Score.ble_iff a a).mpr le_rfl

theorem Score.ble_total (a b : Score) : (a.ble b || b.ble a) = true := by
  rcases le_total a.val b.val with h | h
  · simp [Bool.or_eq_true, (Score.ble_iff a b).mpr h]
  · simp [Bool.or_eq_true, (Score.ble_iff b a).mpr h]

/-! ## The argsort comparator is a linear order on positions -/

theorem argsortKey_iff (scores : List Score) (i j : ℕ) :
    argsortKey scores i j = true ↔
      ((scores.getD i default).val < (scores.getD j default).val ∨
       ((scores.getD i default).val = (scores.getD j default).val ∧ i ≤ j)) := by
  unfold argsortKey
  split_ifs with h
  · rw [Bool.and_eq_true] at h
    have h1 := (Score.ble_iff _ _).mp h.1
    have h2 := (Score.ble_iff _ _).mp h.2
    have heq : (scores.getD i default).val = (scores.getD j default).val := le_antisymm h1 h2
    rw [decide_eq_true_iff]
    constructor
    · intro hij; exact Or.inr ⟨heq, hij⟩
    · rintro (hlt | ⟨-, hij⟩)
      · exact absurd heq (ne_of_lt hlt)
      · exact hij
  · rw [Bool.and_eq_true, not_and] at h
    constructor
    · intro hle
      have hval := (Score.ble_iff _ _).mp hle
      have hnot : ¬((scores.getD j default).ble (scores.getD i default)) = true := h hle
      have : ¬(scores.getD j default).val ≤ (scores.getD i default).val := fun hc =>
        hnot ((Score.ble_iff _ _).mpr hc)
      exact Or.inl (lt_of_le_not_le hval this)
    · rintro (hlt | ⟨heq, -⟩)
      · exact (Score.ble_iff _ _).mpr hlt.le
      · exact (Score.ble_iff _ _).mpr heq.le

theorem argsortKey_trans (scores : List Score) :
    ∀ a b c : ℕ, argsortKey scores a b = true → argsortKey scores b c = true →
      argsortKey scores a c = true := by
  intro a b c hab hbc
  rw [argsortKey_iff] at hab hbc ⊢
  rcases hab with h1 | ⟨e1, le1⟩ <;> rcases hbc with h2 | ⟨e2, le2⟩
  · exact Or.inl (lt_trans h1 h2)
  · exact Or.inl (e2 ▸ h1)
  · exact Or.inl (e1 ▸ h2)
  · exact Or.inr ⟨e1.trans e2, le_trans le1 le2⟩

theorem argsortKey_total (scores : List Score) :
    ∀ a b : ℕ, (argsortKey scores a b || argsortKey scores b a) = true := by
  intro a b
  rw [Bool.or_eq_true, argsortKey_iff, argsortKey_iff]
  rcases lt_trichotomy (scores.getD a default).val (scores.getD b default).val with h | h | h
  · exact Or.inl (Or.inl h)
  · rcases Nat.le_total a b with hab | hab
    · exact Or.inl (Or.inr ⟨h, hab⟩)
    · exact Or.inr (Or.inr ⟨h.symm, hab⟩)
  · exact Or.inr (Or.inl h)

theorem argsortKey_antisymm (scores : List Score) {i j : ℕ}
    (h1 : argsortKey scores i j = true) (h2 : argsortKey scores j i = true) : i = j := by
  rw [argsortKey_iff] at h1 h2
  rcases h1 with h1 | ⟨e1, le1⟩ <;> rcases h2 with h2 | ⟨e2, le2⟩
  · exact absurd (lt_trans h1 h2) (lt_irrefl _)
  · exact absurd e2.symm (ne_of_lt h1)
  · exact absurd e1.symm (ne_of_lt h2)
  · exact le_antisymm le1 le2

/-! ## Structure of argsort -/

theorem argsort_perm (scores : List Score) :
    (argsort scores).Perm (List.range scores.length) :=
  List.mergeSort_perm (List.range scores.length) (argsortKey scores)

theorem argsort_sorted (scores : List Score) :
    (argsort scores).Pairwise (fun i j => argsortKey scores i j = true) :=
  List.sorted_mergeSort (argsortKey_trans scores) (argsortKey_total scores)
    (List.range scores.length)

theorem argsort_length (scores : List Score) :
    (argsort scores).length = scores.length := by
  unfold argsort
  rw [List.length_mergeSort, List.length_range]

theorem argsort_nodup (scores : List Score) : (argsort scores).Nodup :=
  (argsort_perm scores).symm.nodup (List.nodup_range _)

theorem argsort_mem_lt (scores : List Score) {i : ℕ} (h : i ∈ argsort scores) :
    i < scores.length := by
  have := (argsort_perm scores).mem_iff.mp h
  simpa [List.mem_range] using this

/-- `argsort` is the unique `argsortKey`-sorted permutation of the positions. -/
theorem argsort_eq_of_sorted (scores : List Score) (l : List ℕ)
    (hp : l.Perm (List.range scores.length))
    (hs : l.Pairwise (fun i j => argsortKey scores i j = true)) :
    argsort scores = l := by
  haveI : IsAntisymm ℕ (fun i j => argsortKey scores i j = true) :=
    ⟨fun _ _ h1 h2 => argsortKey_antisymm scores h1 h2⟩
  exact List.eq_of_perm_of_sorted ((argsort_perm scores).trans hp.symm)
    (argsort_sorted scores) hs

/-- If the last position is a maximum of the comparator, the sorted order puts
it last. -/
theorem argsort_concat_of_max (scores : List Score) (m : ℕ)
    (hm : m + 1 = scores.length)
    (hmax : ∀ j, j < scores.length → argsortKey scores j m = true) :
    ∃ l', argsort scores = l' ++ [m] := by
  rcases List.eq_nil_or_concat (argsort scores) with hnil | ⟨l', x, hx⟩
  · exfalso
    have hlen := argsort_length scores
    rw [hnil] at hlen
    simp at hlen
    omega
  · rw [List.concat_eq_append] at hx
    refine ⟨l', ?_⟩
    suffices hxm : x = m by rw [hx, hxm]
    have hx_mem : x ∈ argsort scores := by rw [hx]; simp
    have hx_lt : x < scores.length := argsort_mem_lt scores hx_mem
    have hm_mem : m ∈ argsort scores :=
      (argsort_perm scores).mem_iff.mpr (List.mem_range.mpr (by omega))
    have hsorted := argsort_sorted scores
    rw [hx] at hsorted hm_mem
    rcases List.mem_append.mp hm_mem with hml | hmx
    · have hkey_mx : argsortKey scores m x = true :=
        ((List.pairwise_append.mp hsorted).2.2) m hml x (by simp)
      exact argsortKey_antisymm scores (hmax x hx_lt) hkey_mx
    · exact (List.mem_singleton.mp hmx).symm

/-! ## Cauchy-Schwarz for the rational dot product -/

theorem dot_sq_le (xs ys : List ℚ) : (dot xs ys) ^ 2 ≤ normSq xs * normSq ys := by
  induction xs generalizing ys with
  | nil => simp [dot, normSq]
  | cons x xs ih =>
    cases ys with
    | nil => simp [dot, normSq]
    | cons y ys =>
      have h := ih ys
      have h1 := normSq_nonneg xs
      have h2 := normSq_nonneg ys
      have e1 : dot (x :: xs) (y :: ys) = x * y + dot xs ys := by simp [dot]
      have e2 : normSq (x :: xs) = x * x + normSq xs := by simp [normSq, dot]
      have e3 : normSq (y :: ys) = y * y + normSq ys := by simp [normSq, dot]
      rw [e1, e2, e3]
      rcases eq_or_lt_of_le h1 with ha | ha
      · have hd : dot xs ys = 0 := by
          have h' := h
          rw [← ha, zero_mul] at h'
          exact pow_eq_zero_iff two_ne_zero |>.mp (le_antisymm h' (sq_nonneg _))
        rw [hd, ← ha]
        nlinarith [mul_nonneg (mul_self_nonneg x) h2]
      · nlinarith [h, h2, sq_nonneg (dot xs ys * x - y * normSq xs), sq_nonneg x, ha]

theorem dot_eq_zero_of_normSq_right (xs ys : List ℚ) (h : normSq ys = 0) :
    dot xs ys = 0 := by
  have hle := dot_sq_le xs ys
  rw [h, mul_zero] at hle
  exact pow_eq_zero_iff two_ne_zero |>.mp (le_antisymm hle (sq_nonneg _))

/-! ## The structural invariant -/

theorem WF_empty : WF FaceDatabase.empty := ⟨rfl, rfl, rfl⟩

theorem WF_add_face (db : FaceDatabase) (h : WF db) (e : List ℚ)
    (f p i : String) (t : ℚ) : WF (db.add_face e f p i t).1 := by
  obtain ⟨h1, h2, h3⟩ := h
  refine ⟨?_, ?_, ?_⟩
  · simp [FaceDatabase.add_face, h1]
  · simp only [FaceDatabase.add_face, List.map_append, List.length_append,
      List.map_cons, List.map_nil, List.length_cons, List.length_nil, h2, h3]
    rw [List.range'_concat]
    simp [Nat.add_comm]
  · simp [FaceDatabase.add_face, h3]

theorem WF_applyOp (db : FaceDatabase) (op : Op) (h : WF db) :
    WF (applyOp db op) := by
  cases op with
  | add e f p i t => exact WF_add_face db h e f p i t
  | search q k => exact h
  | stats => exact h
  | clear => exact WF_empty

theorem WF_id_getD (db : FaceDatabase) (h : WF db) (i : ℕ)
    (hi : i < db.faces.length) : (db.faces.getD i default).id = i + 1 := by
  rw [List.getD_eq_getElem _ _ hi]
  have h1 : i < (db.faces.map FaceRecord.id).length := by simpa using hi
  have h2 : i < (List.range' 1 db.faces.length).length := by simpa using hi
  have e1 : (db.faces.map FaceRecord.id)[i] = db.faces[i].id := List.getElem_map _
  have e2 : (db.faces.map FaceRecord.id)[i] = (List.range' 1 db.faces.length)[i] :=
    List.getElem_of_eq h.2.1 h1
  have e3 : (List.range' 1 db.faces.length)[i] = 1 + 1 * i := List.getElem_range' i h2
  omega

theorem buildDb_foldl (ops : List AddReq) (db : FaceDatabase) (h : WF db) :
    WF (ops.foldl
      (fun db r => (db.add_face r.embedding r.face_id r.person_name r.image_path r.now).1) db) ∧
    (ops.foldl
      (fun db r => (db.add_face r.embedding r.face_id r.person_name r.image_path r.now).1) db).faces.length =
      db.faces.length + ops.length := by
  induction ops generalizing db with
  | nil => exact ⟨h, rfl⟩
  | cons r ops ih =>
    simp only [List.foldl_cons, List.length_cons]
    have h' := WF_add_face db h r.embedding r.face_id r.person_name r.image_path r.now
    have hlen :
        (db.add_face r.embedding r.face_id r.person_name r.image_path r.now).1.faces.length =
          db.faces.length + 1 := by
      simp [FaceDatabase.add_face]
    obtain ⟨w, l⟩ := ih _ h'
    exact ⟨w, by rw [l, hlen]; omega⟩

theorem WF_buildDb (ops : List AddReq) :
    WF (buildDb ops) ∧ (buildDb ops).faces.length = ops.length := by
  have h := buildDb_foldl ops FaceDatabase.empty WF_empty
  unfold buildDb
  refine ⟨h.1, ?_⟩
  rw [h.2]
  simp [FaceDatabase.empty]

/-! ## Claim theorems -/

/-- C4: `search_similar` on the empty store returns `[]` for every query and
every `top_k`, and (being a total function in the model) never fails. -/
theorem search_on_empty_store (q : List ℚ) (k : ℕ) :
    FaceDatabase.empty.search_similar q k = [] := rfl

/-- C6: after `clear_database` the stats report `total_faces = 0` and every
subsequent `search_similar` on the fresh store returns `[]`, for every query
`q` and every `k`. -/
theorem reset_clears_store (db : FaceDatabase) (q : List ℚ) (k : ℕ) :
    ((clear_database db).1.get_stats).total_faces = 0 ∧
    (clear_database db).1.search_similar q k = [] := ⟨rfl, rfl⟩

/-- C2 counterexample: inserting the 3-component vector `[1, 2, 3]`
(`len ≠ 512`) into the empty store does NOT fail and does NOT leave the store
unchanged: the store afterwards has one record.  No `DimensionMismatch`
check exists in `add_face`. -/
theorem add_face_no_dimension_check :
    ([(1 : ℚ), 2, 3].length ≠ 512) ∧
    (FaceDatabase.empty.add_face [(1 : ℚ), 2, 3] "f1" "p1" "img1" 0).1.faces.length = 1 ∧
    (FaceDatabase.empty.add_face [(1 : ℚ), 2, 3] "f1" "p1" "img1" 0).1 ≠
      FaceDatabase.empty := by
  refine ⟨by decide, rfl, ?_⟩
  intro h
  have := congrArg (fun d => d.faces.length) h
  simp [FaceDatabase.add_face, FaceDatabase.empty] at this

/-- C2 (amended): `add_face` performs no dimension validation at all: for a
vector of ANY length it succeeds, appends the record and the embedding
unchanged, and increments `next_id`. -/
theorem add_face_appends_any_length (db : FaceDatabase) (e : List ℚ)
    (f p i : String) (t : ℚ) :
    (db.add_face e f p i t).1.faces = db.faces ++ [(db.add_face e f p i t).2] ∧
    (db.add_face e f p i t).1.embeddings = db.embeddings ++ [e] ∧
    (db.add_face e f p i t).1.next_id = db.next_id + 1 := ⟨rfl, rfl, rfl⟩

/-- C9 counterexample: on the empty store `get_stats` reports
`embedding_dimension = 0`, not the constant 512 the claim asserts for every
state (`512 if self.embeddings else 0`). -/
theorem stats_dimension_zero_on_empty :
    FaceDatabase.empty.get_stats.embedding_dimension = 0 ∧
    FaceDatabase.empty.get_stats.embedding_dimension ≠ 512 := ⟨rfl, by decide⟩

/-- C9 (amended): `get_stats` reports the current record count, and reports
dimension 512 when at least one embedding is stored but 0 when the store is
empty. -/
theorem stats_reports (db : FaceDatabase) :
    db.get_stats.total_faces = db.faces.length ∧
    (db.embeddings ≠ [] → db.get_stats.embedding_dimension = 512) ∧
    (db.embeddings = [] → db.get_stats.embedding_dimension = 0) := by
  refine ⟨rfl, ?_, ?_⟩ <;> intro h <;> simp [FaceDatabase.get_stats, h]

theorem stats_reports_witness :
    (FaceDatabase.empty.add_face [(1 : ℚ)] "f" "p" "i" 0).1.get_stats.embedding_dimension = 512 ∧
    FaceDatabase.empty.get_stats.embedding_dimension = 0 :=
  ⟨(stats_reports _).2.1 (by simp [FaceDatabase.add_face, FaceDatabase.empty]),
   (stats_reports _).2.2 rfl⟩

/-- C7: for an image request, `top_k` outside `[1, 20]` fails with the
`top_k must be between 1 and 20` error — independently of the database, so
before the index is consulted — and `top_k` inside `[1, 20]` never produces
that error. -/
theorem search_topk_validation (top_k : ℤ) (db : FaceDatabase)
    (ext : Option (List ℚ)) :
    ((top_k < 1 ∨ top_k > 20) →
      search_faces true top_k db ext = .error .invalidTopK) ∧
    (1 ≤ top_k → top_k ≤ 20 →
      search_faces true top_k db ext ≠ .error .invalidTopK) := by
  constructor
  · intro h
    simp [search_faces, h]
  · intro h1 h2
    have h : ¬(top_k < 1 ∨ top_k > 20) := by omega
    cases ext with
    | none => simp [search_faces, h]
    | some q => simp [search_faces, h]

theorem search_topk_validation_witness :
    search_faces true 25 FaceDatabase.empty none = .error .invalidTopK ∧
    search_faces true 5 FaceDatabase.empty none ≠ .error .invalidTopK :=
  ⟨(search_topk_validation 25 FaceDatabase.empty none).1 (by omega),
   (search_topk_validation 5 FaceDatabase.empty none).2 (by omega) (by omega)⟩

/-- C8: after any sequence of `add_face` calls on a fresh store, the i-th
record added carries id `i` (ids are `[1, …, n]` in insertion order), ids are
pairwise distinct, the next add assigns id `n + 1`, and adding never touches
the already-stored records (they are only ever appended to). -/
theorem ids_sequential_from_one (ops : List AddReq) (r : AddReq) :
    (buildDb ops).faces.map FaceRecord.id = List.range' 1 ops.length ∧
    ((buildDb ops).faces.map FaceRecord.id).Nodup ∧
    ((buildDb ops).add_face r.embedding r.face_id r.person_name r.image_path r.now).2.id
      = ops.length + 1 ∧
    ((buildDb ops).add_face r.embedding r.face_id r.person_name r.image_path r.now).1.faces
      = (buildDb ops).faces ++
        [((buildDb ops).add_face r.embedding r.face_id r.person_name r.image_path r.now).2] := by
  obtain ⟨hwf, hlen⟩ := WF_buildDb ops
  refine ⟨?_, ?_, ?_, rfl⟩
  · rw [hwf.2.1, hlen]
  · rw [hwf.2.1, hlen]
    exact List.nodup_range' ..
  · show (buildDb ops).next_id = ops.length + 1
    rw [hwf.2.2, hlen]

/-- C10: the structural invariant (equal lengths of the record and embedding
lists, record at position `i` has id `i + 1`, `next_id = count + 1`) holds of
the fresh store and is preserved by every store operation (`add_face`,
`search_similar`, `get_stats`, `clear_database`); under it the positional
join `self.faces[idx]` in `search_similar` is well defined. -/
theorem store_ops_preserve_invariant :
    WF FaceDatabase.empty ∧
    (∀ (db : FaceDatabase) (op : Op), WF db → WF (applyOp db op)) ∧
    (∀ db : FaceDatabase, WF db → ∀ i, ∀ hi : i < db.faces.length,
      (db.faces.getD i default).id = i + 1) :=
  ⟨WF_empty, fun db op h => WF_applyOp db op h,
   fun db h i hi => WF_id_getD db h i hi⟩

theorem store_ops_preserve_invariant_witness :
    WF (applyOp FaceDatabase.empty (Op.add [(1 : ℚ)] "f" "p" "i" 0)) :=
  store_ops_preserve_invariant.2.1 FaceDatabase.empty
    (Op.add [(1 : ℚ)] "f" "p" "i" 0) (by decide)

theorem pairwise_enum_snd {α : Type} {S : α → α → Prop} {l : List α}
    (h : l.Pairwise S) : l.enum.Pairwise (fun p q => S p.2 q.2) := by
  rw [← List.enum_map_snd l] at h
  exact List.pairwise_map.mp h

/-- C3: for a well-formed store, `search_similar` returns exactly
`min top_k N` results whenever `1 ≤ top_k ≤ 20`. -/
theorem search_length_min (db : FaceDatabase) (hwf : WF db) (q : List ℚ)
    (k : ℕ) (hk1 : 1 ≤ k) (hk2 : k ≤ 20) :
    (db.search_similar q k).length = min k db.faces.length := by
  unfold FaceDatabase.search_similar
  split_ifs with h
  · rw [← hwf.1, h]
    simp
  · rw [List.length_map, List.enum_length, List.length_take,
      List.length_reverse, argsort_length, List.length_map, hwf.1]

theorem search_length_min_witness :
    WF (FaceDatabase.empty.add_face [(1 : ℚ)] "f" "p" "i" 0).1 ∧
    ((FaceDatabase.empty.add_face [(1 : ℚ)] "f" "p" "i" 0).1.search_similar
        [(1 : ℚ)] 3).length =
      min 3 (FaceDatabase.empty.add_face [(1 : ℚ)] "f" "p" "i" 0).1.faces.length :=
  ⟨by decide,
   search_length_min _ (by decide) [(1 : ℚ)] 3 (by decide) (by decide)⟩

/-- C1 (amended): for a well-formed store, the results of `search_similar`
come in non-increasing order of cosine similarity, and two results of EQUAL
similarity come in order of DESCENDING id (the later insertion first): the
reversal in `np.argsort(similarities)[::-1]` turns the stable ascending tie
order into a descending one. -/
theorem search_rank_order (db : FaceDatabase) (hwf : WF db) (q : List ℚ)
    (k : ℕ) :
    (db.search_similar q k).Pairwise (fun a b =>
      b.score.val ≤ a.score.val ∧
      (a.score.val = b.score.val → b.record.id < a.record.id)) := by
  unfold FaceDatabase.search_similar
  split_ifs with h
  · exact List.Pairwise.nil
  · set scores := db.embeddings.map (fun e => cosineScore q e) with hscores
    have hkey : (argsort scores).Pairwise
        (fun i j => argsortKey scores i j = true ∧ i ≠ j) :=
      (argsort_sorted scores).and (argsort_nodup scores)
    have hrev : ((argsort scores).reverse).Pairwise
        (fun i j => argsortKey scores j i = true ∧ j ≠ i) :=
      List.pairwise_reverse.mpr hkey
    have htake : (((argsort scores).reverse).take k).Pairwise
        (fun i j => argsortKey scores j i = true ∧ j ≠ i) :=
      List.Pairwise.sublist (List.take_sublist k _) hrev
    have hmem : ∀ x ∈ ((argsort scores).reverse).take k, x < db.faces.length := by
      intro x hx
      have hx2 : x ∈ argsort scores := List.mem_reverse.mp (List.mem_of_mem_take hx)
      have hx3 := argsort_mem_lt scores hx2
      rw [hscores, List.length_map, hwf.1] at hx3
      exact hx3
    have hstrong : (((argsort scores).reverse).take k).Pairwise (fun i j =>
        (scores.getD j default).val ≤ (scores.getD i default).val ∧
        ((scores.getD i default).val = (scores.getD j default).val →
          (db.faces.getD j default).id < (db.faces.getD i default).id)) := by
      refine List.Pairwise.imp_of_mem ?_ htake
      intro i j hi hj hr
      obtain ⟨hk1, hne⟩ := hr
      rw [argsortKey_iff] at hk1
      have hi' : i < db.faces.length := hmem i hi
      have hj' : j < db.faces.length := hmem j hj
      have hidi := WF_id_getD db hwf i hi'
      have hidj := WF_id_getD db hwf j hj'
      rcases hk1 with hlt | ⟨heq, hle⟩
      · exact ⟨hlt.le, fun he => absurd hlt (by rw [he]; exact lt_irrefl _)⟩
      · refine ⟨heq.le, fun _ => ?_⟩
        rw [hidi, hidj]
        omega
    rw [List.pairwise_map]
    exact pairwise_enum_snd hstrong

theorem search_rank_order_witness :
    WF (FaceDatabase.empty.add_face [(1 : ℚ)] "f" "p" "i" 0).1 ∧
    ((FaceDatabase.empty.add_face [(1 : ℚ)] "f" "p" "i" 0).1.search_similar
        [(1 : ℚ)] 2).Pairwise (fun a b =>
      b.score.val ≤ a.score.val ∧
      (a.score.val = b.score.val → b.record.id < a.record.id)) :=
  ⟨by decide, search_rank_order _ (by decide) [(1 : ℚ)] 2⟩

/-- Against a unit-normalized query `V` no stored vector scores above
`cosineScore V V` (Cauchy-Schwarz, with sklearn's zero-norm convention). -/
theorem ble_cosine_self (V w : List ℚ) (hV : normSq V = 1) :
    (cosineScore V w).ble (cosineScore V V) = true := by
  have hsafe : safeNormSq V = 1 := by unfold safeNormSq; rw [hV]; norm_num
  have hdotVV : dot V V = 1 := hV
  unfold Score.ble cosineScore
  dsimp only
  split_ifs with h1 h2 h3
  · rfl
  · exfalso
    rw [hdotVV] at h2
    exact h2 zero_le_one
  · exfalso
    rw [hdotVV] at h3
    exact absurd h3 (by norm_num)
  · rw [decide_eq_true_iff, hdotVV, hsafe]
    have hgoal : (dot V w) ^ 2 ≤ safeNormSq w := by
      unfold safeNormSq
      split_ifs with hw
      · exact absurd (le_of_eq (dot_eq_zero_of_normSq_right V w hw)) h1
      · calc (dot V w) ^ 2 ≤ normSq V * normSq w := dot_sq_le V w
          _ = normSq w := by rw [hV, one_mul]
    nlinarith [hgoal]

theorem getD_concat_length {α : Type} [Inhabited α] (l : List α) (a : α) :
    (l ++ [a]).getD l.length default = a := by
  have h : l.length < (l ++ [a]).length := by simp
  rw [List.getD_eq_getElem _ _ h]
  exact List.getElem_concat_length l a l.length rfl h

theorem getD_map_lt {α β : Type} [Inhabited β] (f : α → β) (l : List α)
    (j : ℕ) (hj : j < l.length) :
    (l.map f).getD j default = f (l.get ⟨j, hj⟩) := by
  have h : j < (l.map f).length := by simpa using hj
  rw [List.getD_eq_getElem _ _ h, List.getElem_map]
  rfl

/-- C5: after inserting a unit-normalized vector `V` into a well-formed
store, `search_similar V 1` returns exactly the newly inserted record (id =
the id `add_face` assigned) with cosine similarity exactly 1 (hence within
`1e-6` of 1.0). -/
theorem self_similarity (db : FaceDatabase) (hwf : WF db) (V : List ℚ)
    (hV : normSq V = 1) (fid pname ipath : String) (now : ℚ) :
    ∃ r : SearchResult,
      (db.add_face V fid pname ipath now).1.search_similar V 1 = [r] ∧
      r.record.id = (db.add_face V fid pname ipath now).2.id ∧
      r.score.val = 1 ∧ |r.score.val - 1| ≤ 1e-6 := by
  have hsafe : safeNormSq V = 1 := by unfold safeNormSq; rw [hV]; norm_num
  have hdotVV : dot V V = 1 := hV
  have hwf1 := hwf.1
  set db' := (db.add_face V fid pname ipath now).1 with hdb'
  set n := db.embeddings.length with hn
  have hemb : db'.embeddings = db.embeddings ++ [V] := rfl
  have hlenemb : db'.embeddings.length = n + 1 := by rw [hemb]; simp
  set scores := db'.embeddings.map (fun e => cosineScore V e) with hscores
  have hslen : scores.length = n + 1 := by rw [hscores, List.length_map, hlenemb]
  have hsn : scores.getD n default = cosineScore V V := by
    rw [hscores, hemb]
    have hlt : n < (db.embeddings ++ [V]).length := by rw [List.length_append, ← hn]; simp
    rw [getD_map_lt _ _ n hlt]
    congr 1
    show (db.embeddings ++ [V])[n] = V
    exact List.getElem_concat_length db.embeddings V n hn hlt
  have hmax : ∀ j, j < scores.length → argsortKey scores j n = true := by
    intro j hj
    have hjv : (scores.getD j default).ble (scores.getD n default) = true := by
      rw [hsn]
      have hj' : j < db'.embeddings.length := by
        rw [hscores, List.length_map] at hj
        exact hj
      rw [hscores, getD_map_lt _ _ j hj']
      exact ble_cosine_self V _ hV
    unfold argsortKey
    split_ifs with htie
    · rw [decide_eq_true_iff]
      omega
    · exact hjv
  obtain ⟨l', hcat⟩ := argsort_concat_of_max scores n (by omega) hmax
  have hval : (cosineScore V V).val = 1 := by
    unfold Score.val cosineScore
    dsimp only
    rw [hdotVV, hsafe]
    rw [show ((1 * 1 : ℚ) : ℝ) = 1 by norm_num, Real.sqrt_one]
    norm_num
  refine ⟨⟨1, db'.faces.getD n default, scores.getD n default⟩, ?_, ?_, ?_, ?_⟩
  · unfold FaceDatabase.search_similar
    rw [if_neg (by rw [hlenemb]; simp)]
    rw [← hscores, hcat, List.reverse_append]
    simp [List.enum]
  · show (db'.faces.getD n default).id = (db.add_face V fid pname ipath now).2.id
    have hfaces : db'.faces = db.faces ++ [(db.add_face V fid pname ipath now).2] := rfl
    have hnf : n = db.faces.length := by omega
    rw [hfaces, hnf]
    rw [getD_concat_length]
  · show (scores.getD n default).val = 1
    rw [hsn]
    exact hval
  · show |(scores.getD n default).val - 1| ≤ 1e-6
    rw [hsn, hval]
    norm_num

theorem self_similarity_witness :
    WF FaceDatabase.empty ∧ normSq [(1 : ℚ), 0, 0, 0] = 1 ∧
    ∃ r : SearchResult,
      (FaceDatabase.empty.add_face [(1 : ℚ), 0, 0, 0] "f" "p" "i" 0).1.search_similar
          [(1 : ℚ), 0, 0, 0] 1 = [r] ∧
      r.record.id = (FaceDatabase.empty.add_face [(1 : ℚ), 0, 0, 0] "f" "p" "i" 0).2.id ∧
      r.score.val = 1 ∧ |r.score.val - 1| ≤ 1e-6 :=
  ⟨by decide, by norm_num [normSq, dot],
   self_similarity FaceDatabase.empty (by decide) [(1 : ℚ), 0, 0, 0]
     (by norm_num [normSq, dot]) "f" "p" "i" 0⟩

/-- C1 counterexample: store the unit vector `[1,0,0,0]` twice (ids 1 and 2)
and search for it with `top_k = 2`: both hits have the same similarity, but
the result order is id 2 before id 1 — the claimed tie-break "lower id
first" is violated (the `[::-1]` reversal flips the stable ascending tie
order of `np.argsort`). -/
theorem search_tie_break_cex :
    ¬ ((((FaceDatabase.empty.add_face [(1 : ℚ), 0, 0, 0] "f1" "p1" "i1" 0).1.add_face
          [(1 : ℚ), 0, 0, 0] "f2" "p2" "i2" 0).1.search_similar
            [(1 : ℚ), 0, 0, 0] 2).Pairwise (fun a b =>
        b.score.val ≤ a.score.val ∧
        (a.score.val = b.score.val → a.record.id < b.record.id))) := by
  intro hpair
  have hargsort : argsort
      ((((FaceDatabase.empty.add_face [(1 : ℚ), 0, 0, 0] "f1" "p1" "i1" 0).1.add_face
          [(1 : ℚ), 0, 0, 0] "f2" "p2" "i2" 0).1).embeddings.map
        (fun e => cosineScore [(1 : ℚ), 0, 0, 0] e)) = [0, 1] :=
    argsort_eq_of_sorted _ [0, 1] (by decide) (by
      have hmap : (((FaceDatabase.empty.add_face [(1 : ℚ), 0, 0, 0] "f1" "p1" "i1" 0).1.add_face
          [(1 : ℚ), 0, 0, 0] "f2" "p2" "i2" 0).1).embeddings.map
            (fun e => cosineScore [(1 : ℚ), 0, 0, 0] e) =
          [cosineScore [(1 : ℚ), 0, 0, 0] [(1 : ℚ), 0, 0, 0],
           cosineScore [(1 : ℚ), 0, 0, 0] [(1 : ℚ), 0, 0, 0]] := rfl
      rw [hmap]
      refine List.Pairwise.cons ?_ (List.pairwise_singleton _ _)
      intro j hj
      rw [List.mem_singleton] at hj
      subst hj
      unfold argsortKey
      rw [show (([cosineScore [(1 : ℚ), 0, 0, 0] [(1 : ℚ), 0, 0, 0],
           cosineScore [(1 : ℚ), 0, 0, 0] [(1 : ℚ), 0, 0, 0]]).getD 0 default) =
          cosineScore [(1 : ℚ), 0, 0, 0] [(1 : ℚ), 0, 0, 0] from rfl]
      rw [show (([cosineScore [(1 : ℚ), 0, 0, 0] [(1 : ℚ), 0, 0, 0],
           cosineScore [(1 : ℚ), 0, 0, 0] [(1 : ℚ), 0, 0, 0]]).getD 1 default) =
          cosineScore [(1 : ℚ), 0, 0, 0] [(1 : ℚ), 0, 0, 0] from rfl]
      rw [Score.ble_refl]
      simp)
  unfold FaceDatabase.search_similar at hpair
  rw [if_neg (by decide)] at hpair
  rw [hargsort] at hpair
  have hpair2 : List.Pairwise (fun a b : SearchResult =>
      b.score.val ≤ a.score.val ∧
      (a.score.val = b.score.val → a.record.id < b.record.id))
      [⟨1, ⟨2, "f2", "p2", "i2", 0⟩, cosineScore [(1 : ℚ), 0, 0, 0] [(1 : ℚ), 0, 0, 0]⟩,
       ⟨2, ⟨1, "f1", "p1", "i1", 0⟩, cosineScore [(1 : ℚ), 0, 0, 0] [(1 : ℚ), 0, 0, 0]⟩] :=
    hpair
  have h12 := (List.pairwise_cons.mp hpair2).1 _ (List.mem_cons_self _ _)
  exact absurd (h12.2 rfl) (by decide)

end Halo
